import Mathlib

/-!
Verification of the `DataStore` persistence layer (`src/data_store.py`) and the
missing-item screen composition logic (`src/wrist_device.py`) of the
pipboy-wristboy repository, against its natural-language specification.

The store's in-memory document `self._data` is the raw value produced by
`json.load`, so we embed it as a JSON-like dynamic value `JVal`.  Python
operations that can raise (`d[k]` on a missing key, `.get` on a non-dict,
`.lower()` on a non-string) are embedded in the `Except PyErr` monad;
`Except.error` marks the point at which the Python code raises.
-/

/-- A Python/JSON dynamic value, as produced by `json.load`.
`null` doubles as Python `None` (which is what `json` parses `null` to,
and what `DataStore.get_item` returns on a miss). -/
inductive JVal where
  | null : JVal
  | b : Bool → JVal
  | i : Int → JVal
  | f : Rat → JVal
  | s : String → JVal
  | arr : List JVal → JVal
  | obj : List (String × JVal) → JVal

/-- Python exceptions observable in the embedded fragment. -/
inductive PyErr where
  | keyError : PyErr
  | typeError : PyErr
  | attrError : PyErr
  deriving DecidableEq, Repr

/-- Lookup in a Python dict (insertion-ordered association list). -/
def dget : List (String × JVal) → String → Option JVal
  | [], _ => none
  | (k', v) :: rest, k => if k' = k then some v else dget rest k

/-- Write to a Python dict: an existing key keeps its position, a new key is
appended at the end (CPython dict insertion-order semantics). -/
def dset : List (String × JVal) → String → JVal → List (String × JVal)
  | [], k, v => [(k, v)]
  | (k', v') :: rest, k, v =>
      if k' = k then (k', v) :: rest else (k', v') :: dset rest k v

/-- Python subscript `d[k]`: `KeyError` on a missing key, `TypeError` when the
receiver is not a dict. -/
def JVal.item : JVal → String → Except PyErr JVal
  | .obj kvs, k =>
      match dget kvs k with
      | some v => .ok v
      | none => .error .keyError
  | _, _ => .error .typeError

/-- Python subscript assignment `d[k] = v` (functional rendering of the
in-place dict mutation). -/
def JVal.setItem : JVal → String → JVal → Except PyErr JVal
  | .obj kvs, k, v => .ok (.obj (dset kvs k v))
  | _, _, _ => .error .typeError

/-- Python `d.get(k, default)`: `AttributeError` when the receiver is not a
dict (no `.get` method). -/
def JVal.getd : JVal → String → JVal → Except PyErr JVal
  | .obj kvs, k, dflt => .ok ((dget kvs k).getD dflt)
  | _, _, _ => .error .attrError

/-- Python truthiness of a JSON value. -/
def JVal.truthy : JVal → Bool
  | .null => false
  | .b x => x
  | .i n => decide (n ≠ 0)
  | .f q => decide (q ≠ 0)
  | .s v => decide (v ≠ "")
  | .arr xs => !xs.isEmpty
  | .obj kvs => !kvs.isEmpty

/-- Python `x == t` for a string literal/variable `t`: true exactly when `x`
is an equal string (no builtin JSON value of another type compares equal to a
`str`). -/
def pyEqStr (v : JVal) (t : String) : Bool :=
  match v with
  | .s u => decide (u = t)
  | _ => false

/-- Python `str.lower()` on the ASCII names this program uses
(character-wise lowercasing). -/
def strLower (s : String) : String :=
  ⟨s.data.map Char.toLower⟩

/-- The numeric value of a Python number (`bool` is an `int` in Python),
`none` for non-numbers. -/
def JVal.asNum : JVal → Option Rat
  | .i n => some (n : Rat)
  | .b x => some (cond x 1 0)
  | .f q => some q
  | _ => none

/-- Python `min(a, b)`: returns `b` when `b < a`, else `a`; `TypeError` on
non-numeric operands (in this code `a` is always an int literal). -/
def pyMin (a bv : JVal) : Except PyErr JVal :=
  match a.asNum, bv.asNum with
  | some x, some y => .ok (if y < x then bv else a)
  | _, _ => .error .typeError

/-- Python `max(a, b)`: returns `b` when `a < b`, else `a`. -/
def pyMax (a bv : JVal) : Except PyErr JVal :=
  match a.asNum, bv.asNum with
  | some x, some y => .ok (if x < y then bv else a)
  | _, _ => .error .typeError

/-- Python `current + delta` for an `int` `delta` (`TypeError` when `current`
is not a number; `bool` counts as an int). -/
def pyAddInt (cur : JVal) (delta : Int) : Except PyErr JVal :=
  match cur with
  | .i n => .ok (.i (n + delta))
  | .b x => .ok (.i (cond x 1 0 + delta))
  | .f q => .ok (.f (q + (delta : Rat)))
  | _ => .error .typeError

/-- The on-disk state of the storage file as `DataStore._load` distinguishes
it: missing, present-but-unparsable (or unreadable: `json.JSONDecodeError` /
`IOError`), or parsable with parsed value `j`. -/
inductive FileState where
  | absent : FileState
  | corrupt : FileState
  | stored : JVal → FileState

namespace DataStore

/-- `DataStore._default_data`, with `now` standing for
`datetime.now().isoformat()`. -/
def default_data (now : String) : JVal :=
  .obj [
    ("stats", .obj [
      ("hydration", .i 75),
      ("energy", .i 80),
      ("urination", .i 30),
      ("stress", .i 25)]),
    ("inventory", .arr [
      .obj [("name", .s "Phone"), ("category", .s "Electronics"),
            ("quantity", .i 1), ("weight", .f (1 / 5))],
      .obj [("name", .s "Wallet"), ("category", .s "Essentials"),
            ("quantity", .i 1), ("weight", .f (1 / 10))],
      .obj [("name", .s "Keys"), ("category", .s "Essentials"),
            ("quantity", .i 1), ("weight", .f (1 / 20))]]),
    ("settings", .obj [
      ("device_name", .s "WristComp v1.0"),
      ("auto_save", .b true),
      ("compact_mode", .b false)]),
    ("last_updated", .s now)]

/-- `DataStore._load`: return the parsed file when it exists and parses,
otherwise fall back to the defaults.  Total: the `except` clause swallows
`JSONDecodeError` and `IOError`. -/
def load : FileState → String → JVal
  | .stored j, _ => j
  | .absent, now => default_data now
  | .corrupt, now => default_data now

/-- `DataStore.save`: stamp `last_updated` with the current time, then write
the document to the file.  Returns the stamped in-memory document and the new
file state.  (`self._data["last_updated"] = ...` raises `TypeError` when the
document is not a dict.) -/
def save (d : JVal) (now : String) : Except PyErr (JVal × FileState) := do
  let d' ← d.setItem "last_updated" (.s now)
  pure (d', .stored d')

/-- The `if self._data["settings"].get("auto_save", True): self.save()` tail
shared by every mutator.  Returns the (possibly stamped) document and
`some fs` when a save wrote file state `fs`, `none` when no save happened. -/
def maybeAutoSave (d : JVal) (now : String) :
    Except PyErr (JVal × Option FileState) := do
  let st ← d.item "settings"
  let flag ← st.getd "auto_save" (.b true)
  if flag.truthy then do
    let r ← save d now
    pure (r.1, some r.2)
  else pure (d, none)

/-- The `stats` property: `self._data.get("stats", {})`. -/
def stats (d : JVal) : Except PyErr JVal :=
  d.getd "stats" (.obj [])

/-- `DataStore.get_stat`: `self.stats.get(name, 0)`. -/
def get_stat (d : JVal) (name : String) : Except PyErr JVal := do
  let st ← stats d
  st.getd name (.i 0)

/-- `DataStore.set_stat`:
`self._data["stats"][name] = max(0, min(100, value))`, then auto-save.
The clamp (assignment right-hand side) is evaluated before the subscripts. -/
def set_stat (d : JVal) (name : String) (value : JVal) (now : String) :
    Except PyErr (JVal × Option FileState) := do
  let m ← pyMin (.i 100) value
  let clamped ← pyMax (.i 0) m
  let st ← d.item "stats"
  let st' ← st.setItem name clamped
  let d1 ← d.setItem "stats" st'
  maybeAutoSave d1 now

/-- `DataStore.update_stat`: `self.set_stat(name, self.get_stat(name) + delta)`. -/
def update_stat (d : JVal) (name : String) (delta : Int) (now : String) :
    Except PyErr (JVal × Option FileState) := do
  let current ← get_stat d name
  let v ← pyAddInt current delta
  set_stat d name v now

/-- The `inventory` property: `self._data.get("inventory", [])`. -/
def inventory (d : JVal) : Except PyErr JVal :=
  d.getd "inventory" (.arr [])

/-- The `for item in self._data["inventory"]` loop of `add_item`: on the
first case-insensitive name match, overwrite `category`/`quantity`/`weight`
in place and stop (`some` updated list); `none` when no item matches.
`item["name"].lower()` raises `AttributeError` on a non-string name. -/
def addLoop : List JVal → String → String → Int → Rat →
    Except PyErr (Option (List JVal))
  | [], _, _, _, _ => .ok none
  | it :: rest, name, category, quantity, weight => do
      let nm ← it.item "name"
      match nm with
      | .s u =>
          if strLower u = strLower name then do
            let it1 ← it.setItem "category" (.s category)
            let it2 ← it1.setItem "quantity" (.i quantity)
            let it3 ← it2.setItem "weight" (.f weight)
            pure (some (it3 :: rest))
          else do
            match ← addLoop rest name category quantity weight with
            | some rest' => pure (some (it :: rest'))
            | none => pure none
      | _ => .error .attrError

/-- The fresh item dict appended by `add_item` when no name matches. -/
def newItem (name category : String) (quantity : Int) (weight : Rat) : JVal :=
  .obj [("name", .s name), ("category", .s category),
        ("quantity", .i quantity), ("weight", .f weight)]

/-- `DataStore.add_item`: update the first case-insensitive name match in
place, else append a fresh item dict at the end; auto-save either way. -/
def add_item (d : JVal) (name category : String) (quantity : Int)
    (weight : Rat) (now : String) : Except PyErr (JVal × Option FileState) := do
  let inv ← d.item "inventory"
  match inv with
  | .arr items =>
      match ← addLoop items name category quantity weight with
      | some items' => do
          let d1 ← d.setItem "inventory" (.arr items')
          maybeAutoSave d1 now
      | none => do
          let d1 ← d.setItem "inventory"
            (.arr (items ++ [newItem name category quantity weight]))
          maybeAutoSave d1 now
  | _ => .error .typeError

/-- The `for item in self._data["inventory"]` loop of `update_item`: on the
first exact (`==`) name match, overwrite all four fields in place and stop. -/
def updateLoop : List JVal → String → String → String → Int → Rat →
    Except PyErr (Option (List JVal))
  | [], _, _, _, _, _ => .ok none
  | it :: rest, orig, name, category, quantity, weight => do
      let nm ← it.item "name"
      if pyEqStr nm orig then do
        let it1 ← it.setItem "name" (.s name)
        let it2 ← it1.setItem "category" (.s category)
        let it3 ← it2.setItem "quantity" (.i quantity)
        let it4 ← it3.setItem "weight" (.f weight)
        pure (some (it4 :: rest))
      else do
        match ← updateLoop rest orig name category quantity weight with
        | some rest' => pure (some (it :: rest'))
        | none => pure none

/-- `DataStore.update_item`: exact-name match; `True` with field overwrite
and auto-save on a hit, `False` and no mutation on a miss. -/
def update_item (d : JVal) (original_name name category : String)
    (quantity : Int) (weight : Rat) (now : String) :
    Except PyErr (Bool × JVal × Option FileState) := do
  let inv ← d.item "inventory"
  match inv with
  | .arr items =>
      match ← updateLoop items original_name name category quantity weight with
      | some items' => do
          let d1 ← d.setItem "inventory" (.arr items')
          let r ← maybeAutoSave d1 now
          pure (true, r.1, r.2)
      | none => pure (false, d, none)
  | _ => .error .typeError

/-- The loop of `remove_item`, fused with the `inventory.remove(item)` call.
The source removes, from the list, the first element `==`-equal to the first
item whose `"name"` equals `name`; since any earlier `==`-equal dict would
itself have an equal `"name"` and hence have been the first match, the
element removed is exactly the first name-matching one, which is what this
loop drops. -/
def removeLoop : List JVal → String → Except PyErr (Option (List JVal))
  | [], _ => .ok none
  | it :: rest, name => do
      let nm ← it.item "name"
      if pyEqStr nm name then pure (some rest)
      else do
        match ← removeLoop rest name with
        | some rest' => pure (some (it :: rest'))
        | none => pure none

/-- `DataStore.remove_item`: exact-name match; `True` with removal and
auto-save on a hit, `False` and no mutation on a miss. -/
def remove_item (d : JVal) (name : String) (now : String) :
    Except PyErr (Bool × JVal × Option FileState) := do
  let inv ← d.item "inventory"
  match inv with
  | .arr items =>
      match ← removeLoop items name with
      | some items' => do
          let d1 ← d.setItem "inventory" (.arr items')
          let r ← maybeAutoSave d1 now
          pure (true, r.1, r.2)
      | none => pure (false, d, none)
  | _ => .error .typeError

/-- `DataStore.get_item`: exact-name lookup over `self._data["inventory"]`;
returns the item dict, or Python `None` (here `JVal.null`) on a miss. -/
def get_item (d : JVal) (name : String) : Except PyErr JVal := do
  let inv ← d.item "inventory"
  match inv with
  | .arr items =>
      let rec findLoop : List JVal → Except PyErr JVal
        | [] => .ok .null
        | it :: rest => do
            let nm ← it.item "name"
            if pyEqStr nm name then pure it else findLoop rest
      findLoop items
  | _ => .error .typeError

/-- The `settings` property: `self._data.get("settings", {})`. -/
def settings (d : JVal) : Except PyErr JVal :=
  d.getd "settings" (.obj [])

/-- `DataStore.get_setting`: `self.settings.get(key)` (default `None`). -/
def get_setting (d : JVal) (key : String) : Except PyErr JVal := do
  let st ← settings d
  st.getd key .null

/-- `DataStore.set_setting`: write the value into `self._data["settings"]`
first, then run the auto-save check (which therefore reads the value just
written when `key = "auto_save"`). -/
def set_setting (d : JVal) (key : String) (value : JVal) (now : String) :
    Except PyErr (JVal × Option FileState) := do
  let st ← d.item "settings"
  let st' ← st.setItem key value
  let d1 ← d.setItem "settings" st'
  maybeAutoSave d1 now

end DataStore

namespace WristDevice

/-- `ItemDetailScreen.compose` (`src/wrist_device.py`), reduced to the four
field values it renders: each line shows `item.get(key, '-') if item else '-'`,
where `item = store.get_item(self.item_name)`. -/
def itemDetailCompose (d : JVal) (item_name : String) :
    Except PyErr (JVal × JVal × JVal × JVal) := do
  let item ← DataStore.get_item d item_name
  let n ← if item.truthy then item.getd "name" (.s "-") else pure (.s "-")
  let c ← if item.truthy then item.getd "category" (.s "-") else pure (.s "-")
  let q ← if item.truthy then item.getd "quantity" (.s "-") else pure (.s "-")
  let w ← if item.truthy then item.getd "weight" (.s "-") else pure (.s "-")
  pure (n, c, q, w)

/-- `ItemEditorModal.compose` (`src/wrist_device.py`), reduced to the four
input field values:
`item = store.get_item(self.item_name) if self.item_name else {}`, then
unconditionally `item.get("name", "")`, `item.get("category", "")`,
`item.get("quantity", 1)`, `item.get("weight", 0.0)`.  When `item_name` is
truthy but names no item, `item` is Python `None` and the first `.get`
raises `AttributeError`. -/
def itemEditorCompose (d : JVal) (item_name : Option String) :
    Except PyErr (JVal × JVal × JVal × JVal) := do
  let item ← match item_name with
    | some nm =>
        if (JVal.s nm).truthy then DataStore.get_item d nm
        else pure (JVal.obj [])
    | none => pure (JVal.obj [])
  let n ← item.getd "name" (.s "")
  let c ← item.getd "category" (.s "")
  let q ← item.getd "quantity" (.i 1)
  let w ← item.getd "weight" (.f 0)
  pure (n, c, q, w)

end WristDevice

/-! File-system write trace of `DataStore.save`.  `save` serializes with
`json.dump(self._data, f, indent=2)` into a file opened by
`open(self.filepath, 'w')`: opening with mode `'w'` truncates the file in
place, and the dump then writes the serialized text.  No temporary file and
no rename are involved. -/

/-- Primitive file-system operations relevant to the write path. -/
inductive FsOp where
  | openTruncate : String → FsOp
  | writeText : String → String → FsOp
  | renameFile : String → String → FsOp

/-- The operation sequence performed by `DataStore.save` on the file system,
for storage path `filepath` and serialized document text `text`:
`open(filepath, 'w')` (truncation) followed by the `json.dump` write. -/
def saveWriteOps (filepath text : String) : List FsOp :=
  [.openTruncate filepath, .writeText filepath text]

/-- Effect of one file-system operation on the disk (a map from path to file
content, `none` when the path does not exist). -/
def applyFsOp (disk : String → Option String) : FsOp → String → Option String
  | .openTruncate p, q => if q = p then some "" else disk q
  | .writeText p text, q => if q = p then some text else disk q
  | .renameFile src dst, q =>
      if q = dst then disk src else if q = src then none else disk q

/-- All disk states a concurrent reader can observe while an operation
sequence runs: the state before each operation and the final state. -/
def diskStates (disk : String → Option String) : List FsOp →
    List (String → Option String)
  | [] => [disk]
  | op :: ops => disk :: diskStates (applyFsOp disk op) ops

/-- The write of `text` to `path` by the trace `ops` is atomic for a reader:
every observable state of `path` is the original content or the complete new
text. -/
def atomicWriteFor (disk : String → Option String) (ops : List FsOp)
    (path text : String) : Prop :=
  ∀ st ∈ diskStates disk ops, st path = disk path ∨ st path = some text

/-! Derived notions used to state the claims. -/

/-- The `"name"` field of an inventory entry, when the entry is a dict and
the field is a string. -/
def nameOf : JVal → Option String
  | .obj kvs =>
      match dget kvs "name" with
      | some (.s u) => some u
      | _ => none
  | _ => none

/-- The raw `"name"` value of an inventory entry dict. -/
def nameVal : JVal → Option JVal
  | .obj kvs => dget kvs "name"
  | _ => none

/-- `add_item`'s case-insensitive match criterion on one entry. -/
def matchesCI (it : JVal) (name : String) : Bool :=
  match nameOf it with
  | some u => decide (strLower u = strLower name)
  | none => false

/-- In-place overwrite of the `category`/`quantity`/`weight` fields, as
`add_item` performs on the first matching entry. -/
def overwriteFields (it : JVal) (category : String) (quantity : Int)
    (weight : Rat) : JVal :=
  match it with
  | .obj kvs =>
      .obj (dset (dset (dset kvs "category" (.s category))
        "quantity" (.i quantity)) "weight" (.f weight))
  | x => x

/-- The lowercased names of the inventory entries that carry string names. -/
def lowerNames (items : List JVal) : List String :=
  items.filterMap fun it => (nameOf it).map strLower

/-- Case-insensitive uniqueness of inventory names (the spec's invariant on
the inventory). -/
def ciUnique (items : List JVal) : Prop :=
  (lowerNames items).Nodup

/-- One stat value is an integer in `[0, 100]`. -/
def statInRange : JVal → Bool
  | .i n => decide (0 ≤ n) && decide (n ≤ 100)
  | _ => false

/-- Every value in a stats dict is an integer in `[0, 100]`. -/
def statsInRange (st : List (String × JVal)) : Bool :=
  st.all fun p => statInRange p.2

/-! Basic lemmas about the embedded Python dict operations. -/

theorem except_bind_ok {α β : Type} (a : α) (f : α → Except PyErr β) :
    (Except.ok a >>= f) = f a := rfl

theorem except_bind_err {α β : Type} (e : PyErr) (f : α → Except PyErr β) :
    ((Except.error e : Except PyErr α) >>= f) = Except.error e := rfl

theorem except_pure {α : Type} (a : α) :
    (pure a : Except PyErr α) = Except.ok a := rfl

theorem dget_dset_self (l : List (String × JVal)) (k : String) (v : JVal) :
    dget (dset l k v) k = some v := by
  induction l with
  | nil => simp [dget, dset]
  | cons p rest ih =>
      obtain ⟨k', v'⟩ := p
      by_cases h : k' = k <;> simp [dget, dset, h, ih]

theorem dget_dset_ne (l : List (String × JVal)) {k k' : String} (v : JVal)
    (h : k' ≠ k) : dget (dset l k v) k' = dget l k' := by
  have hk : ¬ (k = k') := fun e => h e.symm
  induction l with
  | nil => simp [dget, dset, hk]
  | cons p rest ih =>
      obtain ⟨k'', v'⟩ := p
      by_cases h2 : k'' = k
      · subst h2
        simp [dget, dset, hk]
      · simp only [dset, if_neg h2]
        by_cases h3 : k'' = k' <;> simp [dget, h3, ih]

theorem mem_dset {l : List (String × JVal)} {k : String} {v : JVal}
    {p : String × JVal} (hp : p ∈ dset l k v) : p ∈ l ∨ p = (k, v) := by
  induction l with
  | nil => simpa [dset] using hp
  | cons q rest ih =>
      obtain ⟨k', v'⟩ := q
      by_cases h : k' = k
      · subst h
        rcases (by simpa [dset] using hp : p = (k', v) ∨ p ∈ rest) with h1 | h1
        · exact Or.inr h1
        · exact Or.inl (List.mem_cons_of_mem _ h1)
      · rcases (by simpa [dset, h] using hp : p = (k', v') ∨ p ∈ dset rest k v)
          with h1 | h1
        · exact Or.inl (by simp [h1])
        · rcases ih h1 with h2 | h2
          · exact Or.inl (List.mem_cons_of_mem _ h2)
          · exact Or.inr h2

theorem pyMin_int (a bv : Int) : pyMin (.i a) (.i bv) = .ok (.i (min a bv)) := by
  by_cases h : bv < a
  · have hc : (bv : Rat) < (a : Rat) := by exact_mod_cast h
    simp [pyMin, JVal.asNum, hc, min_eq_right (le_of_lt h)]
  · have hc : ¬ ((bv : Rat) < (a : Rat)) := by exact_mod_cast h
    simp [pyMin, JVal.asNum, hc, min_eq_left (le_of_not_lt h)]

theorem pyMax_int (a bv : Int) : pyMax (.i a) (.i bv) = .ok (.i (max a bv)) := by
  by_cases h : a < bv
  · have hc : (a : Rat) < (bv : Rat) := by exact_mod_cast h
    simp [pyMax, JVal.asNum, hc, max_eq_right (le_of_lt h)]
  · have hc : ¬ ((a : Rat) < (bv : Rat)) := by exact_mod_cast h
    simp [pyMax, JVal.asNum, hc, max_eq_left (le_of_not_lt h)]

/-- Behaviour of the shared auto-save tail on a document whose `"settings"`
entry is a dict: it saves (stamping `last_updated`) exactly when the
`auto_save` entry (default `True`) is truthy. -/
theorem maybeAutoSave_spec (kvs skvs : List (String × JVal)) (now : String)
    (h : dget kvs "settings" = some (.obj skvs)) :
    DataStore.maybeAutoSave (.obj kvs) now =
      if (((dget skvs "auto_save").getD (.b true)).truthy) then
        .ok (.obj (dset kvs "last_updated" (.s now)),
             some (.stored (.obj (dset kvs "last_updated" (.s now)))))
      else .ok (.obj kvs, none) := by
  unfold DataStore.maybeAutoSave
  simp only [JVal.item, h, except_bind_ok, JVal.getd, DataStore.save,
    JVal.setItem]
  split <;> rfl

/-- A convenient corollary of `maybeAutoSave_spec`: the auto-save tail
succeeds and changes no top-level entry other than `last_updated`. -/
theorem maybeAutoSave_preserves (kvs skvs : List (String × JVal)) (now : String)
    (h : dget kvs "settings" = some (.obj skvs)) :
    ∃ kvs' saved, DataStore.maybeAutoSave (.obj kvs) now = .ok (.obj kvs', saved) ∧
      ∀ k, k ≠ "last_updated" → dget kvs' k = dget kvs k := by
  rw [maybeAutoSave_spec kvs skvs now h]
  split
  · exact ⟨_, _, rfl, fun k hk => dget_dset_ne kvs _ hk⟩
  · exact ⟨_, _, rfl, fun k _ => rfl⟩

/-- C4: loading the store from an absent file, or from an unparsable
(corrupt/truncated) one, yields the built-in default document — the seeded
stats `{hydration: 75, energy: 80, urination: 30, stress: 25}`, the three
default starter items, and the default settings — and `_load` is a total
function, so no error is raised to the caller. -/
theorem c4_load_falls_back_to_defaults (now : String) :
    DataStore.load .absent now = DataStore.default_data now ∧
    DataStore.load .corrupt now = DataStore.default_data now ∧
    (DataStore.default_data now).item "stats" = .ok (.obj
      [("hydration", .i 75), ("energy", .i 80),
       ("urination", .i 30), ("stress", .i 25)]) ∧
    (DataStore.default_data now).item "inventory" = .ok (.arr
      [DataStore.newItem "Phone" "Electronics" 1 (1 / 5),
       DataStore.newItem "Wallet" "Essentials" 1 (1 / 10),
       DataStore.newItem "Keys" "Essentials" 1 (1 / 20)]) ∧
    (DataStore.default_data now).item "settings" = .ok (.obj
      [("device_name", .s "WristComp v1.0"),
       ("auto_save", .b true), ("compact_mode", .b false)]) :=
  ⟨rfl, rfl, rfl, rfl, rfl⟩

/-- C5: for every store document (a dict `kvs`), `save()` followed by
`load()` on the produced file state reproduces a document whose stats
mapping, inventory sequence and settings mapping all equal the originals;
only `last_updated` is touched by the round trip. -/
theorem c5_save_load_roundtrip (kvs : List (String × JVal))
    (now later : String) :
    ∃ stamped fs, DataStore.save (.obj kvs) now = .ok (stamped, fs) ∧
      DataStore.load fs later = stamped ∧
      (DataStore.load fs later).item "stats" = (JVal.obj kvs).item "stats" ∧
      (DataStore.load fs later).item "inventory" =
        (JVal.obj kvs).item "inventory" ∧
      (DataStore.load fs later).item "settings" =
        (JVal.obj kvs).item "settings" ∧
      DataStore.stats (DataStore.load fs later) = DataStore.stats (.obj kvs) ∧
      DataStore.inventory (DataStore.load fs later) =
        DataStore.inventory (.obj kvs) ∧
      DataStore.settings (DataStore.load fs later) =
        DataStore.settings (.obj kvs) := by
  have h1 : dget (dset kvs "last_updated" (JVal.s now)) "stats" =
      dget kvs "stats" := dget_dset_ne kvs _ (by decide)
  have h2 : dget (dset kvs "last_updated" (JVal.s now)) "inventory" =
      dget kvs "inventory" := dget_dset_ne kvs _ (by decide)
  have h3 : dget (dset kvs "last_updated" (JVal.s now)) "settings" =
      dget kvs "settings" := dget_dset_ne kvs _ (by decide)
  refine ⟨.obj (dset kvs "last_updated" (.s now)),
    .stored (.obj (dset kvs "last_updated" (.s now))), rfl, rfl, ?_, ?_, ?_,
    ?_, ?_, ?_⟩ <;>
    simp [DataStore.load, JVal.item, DataStore.stats, DataStore.inventory,
      DataStore.settings, JVal.getd, h1, h2, h3]

/-- C2 counterexample: on the default document `auto_save` is currently
`True`, yet `set_setting("auto_save", False)` performs no save (the saved
component is `none`), because the auto-save check runs after the write and
reads the new value.  This contradicts the claim that the call still
persists. -/
theorem c2_counterexample :
    DataStore.get_setting (DataStore.default_data "t0") "auto_save" =
      .ok (.b true) ∧
    ∃ d1, DataStore.set_setting (DataStore.default_data "t0") "auto_save"
      (.b false) "t1" = .ok (d1, none) :=
  ⟨rfl, ⟨_, rfl⟩⟩

/-- C2 amended: `set_setting(key, value)` first writes the value and then
performs a save exactly when the `auto_save` entry of the *updated* settings
dict is truthy.  Hence setting `auto_save` to a falsy value takes effect for
that same call (no save happens), not only for subsequent calls; for every
key other than `"auto_save"` the decision equals the flag as it was before
the call. -/
theorem c2_amended_save_checks_flag_after_write
    (kvs skvs : List (String × JVal)) (key : String) (value : JVal)
    (now : String) (h : dget kvs "settings" = some (.obj skvs)) :
    (DataStore.set_setting (.obj kvs) key value now =
      if (((dget (dset skvs key value) "auto_save").getD (.b true)).truthy)
      then
        .ok (.obj (dset (dset kvs "settings" (.obj (dset skvs key value)))
               "last_updated" (.s now)),
             some (.stored (.obj (dset
               (dset kvs "settings" (.obj (dset skvs key value)))
               "last_updated" (.s now)))))
      else .ok (.obj (dset kvs "settings" (.obj (dset skvs key value))),
        none)) ∧
    (key = "auto_save" → value.truthy = false →
      DataStore.set_setting (.obj kvs) key value now =
        .ok (.obj (dset kvs "settings" (.obj (dset skvs key value))), none)) ∧
    (key ≠ "auto_save" →
      dget (dset skvs key value) "auto_save" = dget skvs "auto_save") := by
  have hset : dget (dset kvs "settings" (.obj (dset skvs key value)))
      "settings" = some (.obj (dset skvs key value)) :=
    dget_dset_self kvs "settings" _
  have hmain : DataStore.set_setting (.obj kvs) key value now =
      DataStore.maybeAutoSave
        (.obj (dset kvs "settings" (.obj (dset skvs key value)))) now := by
    unfold DataStore.set_setting
    simp [JVal.item, h, JVal.setItem, except_bind_ok]
  constructor
  · rw [hmain, maybeAutoSave_spec _ (dset skvs key value) now hset]
  · constructor
    · intro hkey hval
      rw [hmain, maybeAutoSave_spec _ (dset skvs key value) now hset]
      subst hkey
      rw [dget_dset_self skvs "auto_save" value]
      simp [hval]
    · intro hkey
      exact dget_dset_ne skvs value (fun e => hkey e.symm)

/-- C2 amended, witness: concretely, with default settings (`auto_save`
true), `set_setting("auto_save", False)` performs no save. -/
theorem c2_amended_witness :
    DataStore.set_setting
      (.obj [("settings", .obj [("auto_save", .b true)])])
      "auto_save" (.b false) "t1" =
      .ok (.obj [("settings", .obj [("auto_save", .b false)])], none) :=
  ((c2_amended_save_checks_flag_after_write
      [("settings", .obj [("auto_save", .b true)])] [("auto_save", .b true)]
      "auto_save" (.b false) "t1" rfl).2.1 rfl rfl).trans (by rfl)

/-- C3 counterexample: the write performed by `save()` is
`open(filepath, 'w')` followed by `json.dump`; opening with `'w'` truncates
the file, so a reader between the two operations observes an empty file —
neither the old document (`"OLD"`) nor the new one (`"NEW"`).  The write is
therefore not atomic for a concurrent reader. -/
theorem c3_counterexample :
    ¬ atomicWriteFor
        (fun q => if q = "watch_data.json" then some "OLD" else none)
        (saveWriteOps "watch_data.json" "NEW") "watch_data.json" "NEW" := by
  intro h
  rcases h (applyFsOp
      (fun q => if q = "watch_data.json" then some "OLD" else none)
      (.openTruncate "watch_data.json"))
      (by simp [saveWriteOps, diskStates]) with hc | hc
  · simp [applyFsOp] at hc
  · simp [applyFsOp] at hc

/-- C3 amended: `save()` stamps `last_updated` with the current timestamp and
then writes the document *directly* to the storage file — an in-place
truncate-then-write with no temporary file and no rename — so the write is
not atomic: in every run a reader can observe the truncated (empty) file
state between the two steps. -/
theorem c3_amended_stamp_then_direct_write (kvs : List (String × JVal))
    (now filepath text : String) :
    (∃ stamped, DataStore.save (.obj kvs) now = .ok (stamped, .stored stamped) ∧
       stamped.item "last_updated" = .ok (.s now)) ∧
    saveWriteOps filepath text =
      [.openTruncate filepath, .writeText filepath text] ∧
    (∀ op ∈ saveWriteOps filepath text,
       ∀ src dst, op ≠ FsOp.renameFile src dst) ∧
    (∀ disk : String → Option String,
       ∃ st ∈ diskStates disk (saveWriteOps filepath text),
         st filepath = some "") := by
  refine ⟨⟨.obj (dset kvs "last_updated" (.s now)), rfl, ?_⟩, rfl, ?_, ?_⟩
  · simp [JVal.item, dget_dset_self]
  · intro op hop src dst
    rcases (by simpa [saveWriteOps] using hop :
        op = FsOp.openTruncate filepath ∨ op = FsOp.writeText filepath text)
      with h1 | h1 <;> simp [h1]
  · intro disk
    refine ⟨applyFsOp disk (.openTruncate filepath),
      by simp [saveWriteOps, diskStates], ?_⟩
    simp [applyFsOp]

/-- C3 amended, witness at a concrete path, document text and disk. -/
theorem c3_amended_stamp_then_direct_write_witness :
    (FsOp.openTruncate "watch_data.json" ∈ saveWriteOps "watch_data.json" "X") ∧
    (∀ src dst,
      FsOp.openTruncate "watch_data.json" ≠ FsOp.renameFile src dst) ∧
    ∃ st ∈ diskStates (fun _ => none) (saveWriteOps "watch_data.json" "X"),
      st "watch_data.json" = some "" := by
  have h := c3_amended_stamp_then_direct_write [] "t0" "watch_data.json" "X"
  exact ⟨by simp [saveWriteOps],
    h.2.2.1 _ (by simp [saveWriteOps]), h.2.2.2 (fun _ => none)⟩

/-- C9 counterexample: with the default document, the key `"Flashlight"` is
stale (no matching item, `get_item` returns `None`).  The detail screen does
fall back to `'-'` placeholders, but building the editor screen over the
same stale key raises `AttributeError` (the source computes
`store.get_item(self.item_name) if self.item_name else {}`, then calls
`.get` on the resulting `None`), contradicting the claim that neither screen
ever fails. -/
theorem c9_counterexample :
    DataStore.get_item (DataStore.default_data "t0") "Flashlight" =
      .ok .null ∧
    WristDevice.itemDetailCompose (DataStore.default_data "t0") "Flashlight" =
      .ok (.s "-", .s "-", .s "-", .s "-") ∧
    WristDevice.itemEditorCompose (DataStore.default_data "t0")
      (some "Flashlight") = .error .attrError :=
  ⟨rfl, rfl, rfl⟩

/-- C9 amended: over a missing item, the detail screen presents `'-'`
placeholders for every field and never raises; the editor screen falls back
to empty/placeholder field values only when the item key is absent or empty
(falsy), and raises `AttributeError` whenever a non-empty stale key names no
item. -/
theorem c9_amended_missing_item_screens (d : JVal) (nm : String)
    (hstale : DataStore.get_item d nm = .ok .null) (hne : nm ≠ "") :
    WristDevice.itemDetailCompose d nm = .ok (.s "-", .s "-", .s "-", .s "-") ∧
    WristDevice.itemEditorCompose d (some nm) = .error .attrError ∧
    WristDevice.itemEditorCompose d none = .ok (.s "", .s "", .i 1, .f 0) ∧
    WristDevice.itemEditorCompose d (some "") =
      .ok (.s "", .s "", .i 1, .f 0) := by
  refine ⟨?_, ?_, rfl, ?_⟩
  · unfold WristDevice.itemDetailCompose
    simp [hstale, except_bind_ok, JVal.truthy]
    rfl
  · unfold WristDevice.itemEditorCompose
    simp [JVal.truthy, hne, hstale, except_bind_ok, except_bind_err,
      JVal.getd]
  · unfold WristDevice.itemEditorCompose
    simp [JVal.truthy, JVal.getd, dget, except_bind_ok]

/-- C9 amended, witness: the default document with stale key `"Flashlight"`. -/
theorem c9_amended_missing_item_screens_witness :
    WristDevice.itemDetailCompose (DataStore.default_data "t1") "Flashlight" =
      .ok (.s "-", .s "-", .s "-", .s "-") ∧
    WristDevice.itemEditorCompose (DataStore.default_data "t1")
      (some "Flashlight") = .error .attrError :=
  ⟨(c9_amended_missing_item_screens (DataStore.default_data "t1") "Flashlight"
      rfl (by decide)).1,
   (c9_amended_missing_item_screens (DataStore.default_data "t1") "Flashlight"
      rfl (by decide)).2.1⟩

/-- C10 counterexample: on a document loaded from valid JSON that lacks the
top-level `"inventory"` key, the reader `get_item` does **not** succeed with
a `None` default: it indexes `self._data["inventory"]` directly and raises
`KeyError`.  This refutes the claim's inclusion of `get_item` among the
accessors that still succeed. -/
theorem c10_counterexample :
    DataStore.load (.stored (.obj [("stats", .obj []), ("settings", .obj [])]))
      "t0" = .obj [("stats", .obj []), ("settings", .obj [])] ∧
    DataStore.get_item (.obj [("stats", .obj []), ("settings", .obj [])])
      "Phone" = .error .keyError :=
  ⟨rfl, rfl⟩

/-- C10 amended: on a document missing one of the top-level keys, the
defaulting read accessors (`stats`, `inventory`, `settings` properties,
`get_stat`, `get_setting`) still succeed with empty/zero/`None` defaults,
but `get_item` — which indexes the raw `"inventory"` key — raises `KeyError`
just like every mutator that touches the missing key, including the
auto-save check inside `set_stat` when only `"settings"` is missing. -/
theorem c10_amended_missing_key_behavior (kvs : List (String × JVal))
    (name key category : String) (v delta q : Int) (w : Rat) (vv : JVal)
    (now : String) :
    (dget kvs "stats" = none →
      DataStore.stats (.obj kvs) = .ok (.obj []) ∧
      DataStore.get_stat (.obj kvs) name = .ok (.i 0) ∧
      DataStore.set_stat (.obj kvs) name (.i v) now = .error .keyError ∧
      DataStore.update_stat (.obj kvs) name delta now = .error .keyError) ∧
    (dget kvs "inventory" = none →
      DataStore.inventory (.obj kvs) = .ok (.arr []) ∧
      DataStore.get_item (.obj kvs) name = .error .keyError ∧
      DataStore.add_item (.obj kvs) name category q w now =
        .error .keyError ∧
      DataStore.update_item (.obj kvs) name name category q w now =
        .error .keyError ∧
      DataStore.remove_item (.obj kvs) name now = .error .keyError) ∧
    (dget kvs "settings" = none →
      DataStore.settings (.obj kvs) = .ok (.obj []) ∧
      DataStore.get_setting (.obj kvs) key = .ok .null ∧
      DataStore.set_setting (.obj kvs) key vv now = .error .keyError) ∧
    (∀ st, dget kvs "stats" = some (.obj st) → dget kvs "settings" = none →
      DataStore.set_stat (.obj kvs) name (.i v) now = .error .keyError) := by
  refine ⟨?_, ?_, ?_, ?_⟩
  · intro h
    refine ⟨?_, ?_, ?_, ?_⟩
    · simp [DataStore.stats, JVal.getd, h]
    · simp [DataStore.get_stat, DataStore.stats, JVal.getd, h,
        except_bind_ok, dget]
    · unfold DataStore.set_stat
      simp [pyMin_int, pyMax_int, except_bind_ok, except_bind_err,
        JVal.item, h]
    · unfold DataStore.update_stat DataStore.set_stat
      simp [DataStore.get_stat, DataStore.stats, JVal.getd, h, pyAddInt,
        pyMin_int, pyMax_int, except_bind_ok, except_bind_err, JVal.item,
        dget]
  · intro h
    refine ⟨?_, ?_, ?_, ?_, ?_⟩
    · simp [DataStore.inventory, JVal.getd, h]
    · unfold DataStore.get_item
      simp [JVal.item, h, except_bind_err]
    · unfold DataStore.add_item
      simp [JVal.item, h, except_bind_err]
    · unfold DataStore.update_item
      simp [JVal.item, h, except_bind_err]
    · unfold DataStore.remove_item
      simp [JVal.item, h, except_bind_err]
  · intro h
    refine ⟨?_, ?_, ?_⟩
    · simp [DataStore.settings, JVal.getd, h]
    · simp [DataStore.get_setting, DataStore.settings, JVal.getd, h,
        except_bind_ok, dget]
    · unfold DataStore.set_setting
      simp [JVal.item, h, except_bind_err]
  · intro st hst hset
    unfold DataStore.set_stat
    have hpres : dget (dset kvs "stats" (.obj (dset st name (.i (max 0
        (min 100 v)))))) "settings" = none := by
      rw [dget_dset_ne kvs _ (by decide)]
      exact hset
    unfold DataStore.maybeAutoSave
    simp [pyMin_int, pyMax_int, except_bind_ok, except_bind_err, JVal.item,
      hst, JVal.setItem, hpres]

/-- C10 amended, witness: the empty document (all three keys missing) and a
document with only `"stats"` present. -/
theorem c10_amended_missing_key_behavior_witness :
    DataStore.get_stat (.obj []) "energy" = .ok (.i 0) ∧
    DataStore.set_stat (.obj []) "energy" (.i 5) "t0" = .error .keyError ∧
    DataStore.get_item (.obj []) "Phone" = .error .keyError ∧
    DataStore.set_setting (.obj []) "compact_mode" (.b true) "t0" =
      .error .keyError ∧
    DataStore.set_stat (.obj [("stats", .obj [])]) "energy" (.i 5) "t0" =
      .error .keyError := by
  have h1 := c10_amended_missing_key_behavior [] "energy" "compact_mode"
    "Uncategorized" 5 1 1 0 (.b true) "t0"
  have h2 := c10_amended_missing_key_behavior [("stats", .obj [])] "energy"
    "compact_mode" "Uncategorized" 5 1 1 0 (.b true) "t0"
  exact ⟨(h1.1 rfl).2.1, (h1.1 rfl).2.2.1, (h1.2.1 rfl).2.1,
    (h1.2.2.1 rfl).2.2, h2.2.2.2 [] rfl rfl⟩

theorem dget_mem {l : List (String × JVal)} {k : String} {x : JVal}
    (h : dget l k = some x) : (k, x) ∈ l := by
  induction l with
  | nil => simp [dget] at h
  | cons p rest ih =>
      obtain ⟨k', v'⟩ := p
      by_cases he : k' = k
      · subst he
        have h' : v' = x := by simpa [dget] using h
        subst h'
        exact List.mem_cons_self _ _
      · simp only [dget, if_neg he] at h
        exact List.mem_cons_of_mem _ (ih h)

theorem statsInRange_dset {st : List (String × JVal)} {name : String}
    {n : Int} (h : statsInRange st = true) (h0 : 0 ≤ n) (h100 : n ≤ 100) :
    statsInRange (dset st name (.i n)) = true := by
  unfold statsInRange at h ⊢
  rw [List.all_eq_true] at h ⊢
  intro p hp
  rcases mem_dset hp with hmem | heq
  · exact h p hmem
  · subst heq
    simp [statInRange, h0, h100]

/-- `set_stat` on a document whose `"stats"` and `"settings"` entries are
dicts: it succeeds, the new stats dict carries the clamped value under
`name`, and every top-level entry other than `"stats"` and `"last_updated"`
is unchanged. -/
theorem set_stat_spec (kvs st skvs : List (String × JVal)) (name : String)
    (v : Int) (now : String)
    (hst : dget kvs "stats" = some (.obj st))
    (hset : dget kvs "settings" = some (.obj skvs)) :
    ∃ kvs' saved, DataStore.set_stat (.obj kvs) name (.i v) now =
      .ok (.obj kvs', saved) ∧
      dget kvs' "stats" = some (.obj (dset st name (.i (max 0 (min 100 v))))) ∧
      ∀ k, k ≠ "last_updated" → k ≠ "stats" → dget kvs' k = dget kvs k := by
  have hset1 : dget (dset kvs "stats"
      (.obj (dset st name (.i (max 0 (min 100 v)))))) "settings" =
      some (.obj skvs) := by
    rw [dget_dset_ne kvs _ (by decide)]
    exact hset
  obtain ⟨kvs', saved, hrun, hpres⟩ :=
    maybeAutoSave_preserves (dset kvs "stats"
      (.obj (dset st name (.i (max 0 (min 100 v)))))) skvs now hset1
  refine ⟨kvs', saved, ?_, ?_, ?_⟩
  · unfold DataStore.set_stat
    simp only [pyMin_int, except_bind_ok, pyMax_int, JVal.item, hst,
      JVal.setItem]
    exact hrun
  · rw [hpres "stats" (by decide), dget_dset_self]
  · intro k hk1 hk2
    rw [hpres k hk1, dget_dset_ne kvs _ hk2]

/-- C1: for every stat name and integer input, `set_stat` stores exactly
`max(0, min(100, value))` — a value in `[0, 100]` — and `update_stat` stores
the clamp of `current + delta`; starting from a store whose stats are all in
range, every stat value in the store remains in `[0, 100]` after either
call, regardless of the magnitude or sign of the input. -/
theorem c1_stat_writes_clamped_into_range
    (kvs st skvs : List (String × JVal)) (name : String) (v delta : Int)
    (now : String)
    (hst : dget kvs "stats" = some (.obj st))
    (hset : dget kvs "settings" = some (.obj skvs))
    (hrange : statsInRange st = true) :
    (∃ kvs' saved, DataStore.set_stat (.obj kvs) name (.i v) now =
        .ok (.obj kvs', saved) ∧
      DataStore.get_stat (.obj kvs') name = .ok (.i (max 0 (min 100 v))) ∧
      0 ≤ max 0 (min 100 v) ∧ max 0 (min 100 v) ≤ 100 ∧
      dget kvs' "stats" =
        some (.obj (dset st name (.i (max 0 (min 100 v))))) ∧
      statsInRange (dset st name (.i (max 0 (min 100 v)))) = true) ∧
    (∃ cur : Int, DataStore.get_stat (.obj kvs) name = .ok (.i cur) ∧
      ∃ kvs' saved, DataStore.update_stat (.obj kvs) name delta now =
        .ok (.obj kvs', saved) ∧
      DataStore.get_stat (.obj kvs') name =
        .ok (.i (max 0 (min 100 (cur + delta)))) ∧
      statsInRange (dset st name (.i (max 0 (min 100 (cur + delta))))) =
        true) := by
  have hb0 : ∀ m : Int, (0:Int) ≤ max 0 (min 100 m) := fun m => le_max_left _ _
  have hb100 : ∀ m : Int, max 0 (min 100 m) ≤ 100 := fun m =>
    max_le (by norm_num) (min_le_left _ _)
  have hget : ∀ (kvs₂ st₂ : List (String × JVal)) (n : Int),
      dget kvs₂ "stats" = some (.obj st₂) →
      dget st₂ name = some (.i n) →
      DataStore.get_stat (.obj kvs₂) name = .ok (.i n) := by
    intro kvs₂ st₂ n h1 h2
    unfold DataStore.get_stat DataStore.stats
    simp [JVal.getd, h1, h2, except_bind_ok]
  constructor
  · obtain ⟨kvs', saved, hrun, hstats, hrest⟩ :=
      set_stat_spec kvs st skvs name v now hst hset
    exact ⟨kvs', saved, hrun,
      hget kvs' _ _ hstats (dget_dset_self _ _ _),
      hb0 v, hb100 v, hstats,
      statsInRange_dset hrange (hb0 v) (hb100 v)⟩
  · have hcur : ∃ cur : Int, dget st name = some (.i cur) ∨
        (dget st name = none ∧ cur = 0) := by
      cases hd : dget st name with
      | none => exact ⟨0, Or.inr ⟨rfl, rfl⟩⟩
      | some x =>
          have hx : statInRange x = true :=
            List.all_eq_true.mp hrange _ (dget_mem hd)
          cases x with
          | i n => exact ⟨n, Or.inl rfl⟩
          | null => simp [statInRange] at hx
          | b _ => simp [statInRange] at hx
          | f _ => simp [statInRange] at hx
          | s _ => simp [statInRange] at hx
          | arr _ => simp [statInRange] at hx
          | obj _ => simp [statInRange] at hx
    obtain ⟨cur, hcase⟩ := hcur
    have hgetcur : DataStore.get_stat (.obj kvs) name = .ok (.i cur) := by
      unfold DataStore.get_stat DataStore.stats
      rcases hcase with hc | ⟨hc, hc0⟩
      · simp [JVal.getd, hst, hc, except_bind_ok]
      · subst hc0
        simp [JVal.getd, hst, hc, except_bind_ok]
    obtain ⟨kvs', saved, hrun, hstats, hrest⟩ :=
      set_stat_spec kvs st skvs name (cur + delta) now hst hset
    refine ⟨cur, hgetcur, kvs', saved, ?_,
      hget kvs' _ _ hstats (dget_dset_self _ _ _),
      statsInRange_dset hrange (hb0 _) (hb100 _)⟩
    unfold DataStore.update_stat
    rw [hgetcur]
    simp only [except_bind_ok, pyAddInt]
    exact hrun

/-- C1 witness: the spec's own examples on a store with `energy = 80` —
`update_stat("energy", -500)` stores 0 and `update_stat("energy", 500)`
stores 100. -/
theorem c1_stat_writes_clamped_into_range_witness :
    (∃ kvs' saved, DataStore.update_stat
        (.obj [("stats", .obj [("energy", .i 80)]),
               ("settings", .obj [("auto_save", .b true)])])
        "energy" (-500) "t1" = .ok (.obj kvs', saved) ∧
      DataStore.get_stat (.obj kvs') "energy" = .ok (.i 0)) ∧
    (∃ kvs' saved, DataStore.update_stat
        (.obj [("stats", .obj [("energy", .i 80)]),
               ("settings", .obj [("auto_save", .b true)])])
        "energy" 500 "t1" = .ok (.obj kvs', saved) ∧
      DataStore.get_stat (.obj kvs') "energy" = .ok (.i 100)) := by
  constructor
  · obtain ⟨cur, hcur, kvs', saved, hrun, hget, -⟩ :=
      (c1_stat_writes_clamped_into_range
        [("stats", .obj [("energy", .i 80)]),
         ("settings", .obj [("auto_save", .b true)])]
        [("energy", .i 80)] [("auto_save", .b true)]
        "energy" 0 (-500) "t1" rfl rfl rfl).2
    have hc : cur = 80 := by
      have h2 : (Except.ok (JVal.i cur) : Except PyErr JVal) =
          .ok (.i 80) := by
        rw [← hcur]; rfl
      exact JVal.i.inj (Except.ok.inj h2)
    subst hc
    have hval : (0 ⊔ 100 ⊓ (80 + -500) : Int) = 0 := by decide
    rw [hval] at hget
    exact ⟨kvs', saved, hrun, hget⟩
  · obtain ⟨cur, hcur, kvs', saved, hrun, hget, -⟩ :=
      (c1_stat_writes_clamped_into_range
        [("stats", .obj [("energy", .i 80)]),
         ("settings", .obj [("auto_save", .b true)])]
        [("energy", .i 80)] [("auto_save", .b true)]
        "energy" 0 500 "t1" rfl rfl rfl).2
    have hc : cur = 80 := by
      have h2 : (Except.ok (JVal.i cur) : Except PyErr JVal) =
          .ok (.i 80) := by
        rw [← hcur]; rfl
      exact JVal.i.inj (Except.ok.inj h2)
    subst hc
    have hval : (0 ⊔ 100 ⊓ (80 + 500) : Int) = 100 := by decide
    rw [hval] at hget
    exact ⟨kvs', saved, hrun, hget⟩

theorem item_of_nameVal {it v : JVal} (h : nameVal it = some v) :
    it.item "name" = .ok v := by
  cases it <;> simp [nameVal] at h
  simp [JVal.item, h]

theorem nameOf_obj {it : JVal} {u : String} (h : nameOf it = some u) :
    ∃ kvs, it = .obj kvs ∧ dget kvs "name" = some (.s u) := by
  cases it with
  | obj kvs =>
      refine ⟨kvs, rfl, ?_⟩
      simp only [nameOf] at h
      cases hd : dget kvs "name" with
      | none => rw [hd] at h; simp at h
      | some x =>
          rw [hd] at h
          cases x <;> simp_all
  | null => simp [nameOf] at h
  | b _ => simp [nameOf] at h
  | i _ => simp [nameOf] at h
  | f _ => simp [nameOf] at h
  | s _ => simp [nameOf] at h
  | arr _ => simp [nameOf] at h

theorem pyEqStr_true {v : JVal} {t : String} (h : pyEqStr v t = true) :
    v = .s t := by
  cases v <;> simp [pyEqStr] at h
  simp [h]

/-- `update_item`'s loop returns `None`-equivalent (`.ok none`) when every
entry has a `"name"` value and none of them `==`-equals `orig`. -/
theorem updateLoop_none (items : List JVal) (orig name category : String)
    (quantity : Int) (weight : Rat)
    (h : ∀ it ∈ items, ∃ v, nameVal it = some v ∧ pyEqStr v orig = false) :
    DataStore.updateLoop items orig name category quantity weight =
      .ok none := by
  induction items with
  | nil => rfl
  | cons it rest ih =>
      obtain ⟨v, hv, hne⟩ := h it (List.mem_cons_self _ _)
      unfold DataStore.updateLoop
      rw [item_of_nameVal hv]
      simp [except_bind_ok, except_pure, hne,
        ih (fun x hx => h x (List.mem_cons_of_mem _ hx))]

/-- `remove_item`'s loop finds nothing when every entry has a `"name"` value
and none of them `==`-equals `name`. -/
theorem removeLoop_none (items : List JVal) (name : String)
    (h : ∀ it ∈ items, ∃ v, nameVal it = some v ∧ pyEqStr v name = false) :
    DataStore.removeLoop items name = .ok none := by
  induction items with
  | nil => rfl
  | cons it rest ih =>
      obtain ⟨v, hv, hne⟩ := h it (List.mem_cons_self _ _)
      unfold DataStore.removeLoop
      rw [item_of_nameVal hv]
      simp [except_bind_ok, except_pure, hne,
        ih (fun x hx => h x (List.mem_cons_of_mem _ hx))]

/-- C8: when no inventory entry's `"name"` exactly (case-sensitively) equals
the given name, `update_item` returns `False` and `remove_item` returns
`False`, both leaving the document completely unchanged, performing no save
and raising no exception. -/
theorem c8_exact_miss_returns_false_noop (kvs : List (String × JVal))
    (items : List JVal) (original_name newName category rname now : String)
    (quantity : Int) (weight : Rat)
    (hinv : dget kvs "inventory" = some (.arr items))
    (hupd : ∀ it ∈ items, ∃ v, nameVal it = some v ∧
      pyEqStr v original_name = false)
    (hrem : ∀ it ∈ items, ∃ v, nameVal it = some v ∧
      pyEqStr v rname = false) :
    DataStore.update_item (.obj kvs) original_name newName category quantity
      weight now = .ok (false, .obj kvs, none) ∧
    DataStore.remove_item (.obj kvs) rname now = .ok (false, .obj kvs, none) := by
  constructor
  · unfold DataStore.update_item
    simp [JVal.item, hinv, except_bind_ok, except_pure,
      updateLoop_none items original_name newName category quantity weight
        hupd]
  · unfold DataStore.remove_item
    simp [JVal.item, hinv, except_bind_ok, except_pure,
      removeLoop_none items rname hrem]

/-- C8 witness: a one-item store; `update_item("nonexistent", ...)` and
`remove_item("nonexistent")` both return `False` and change nothing. -/
theorem c8_exact_miss_returns_false_noop_witness :
    DataStore.update_item
      (.obj [("inventory", .arr [DataStore.newItem "Phone" "Electronics" 1
          (1 / 5)]),
        ("settings", .obj [("auto_save", .b true)])])
      "nonexistent" "x" "y" 2 0 "t1" =
      .ok (false,
        .obj [("inventory", .arr [DataStore.newItem "Phone" "Electronics" 1
            (1 / 5)]),
          ("settings", .obj [("auto_save", .b true)])], none) ∧
    DataStore.remove_item
      (.obj [("inventory", .arr [DataStore.newItem "Phone" "Electronics" 1
          (1 / 5)]),
        ("settings", .obj [("auto_save", .b true)])])
      "nonexistent" "t1" =
      .ok (false,
        .obj [("inventory", .arr [DataStore.newItem "Phone" "Electronics" 1
            (1 / 5)]),
          ("settings", .obj [("auto_save", .b true)])], none) := by
  refine c8_exact_miss_returns_false_noop _ _ "nonexistent" "x" "y"
    "nonexistent" "t1" 2 0 rfl ?_ ?_ <;>
  · intro it hit
    rcases (by simpa using hit :
        it = DataStore.newItem "Phone" "Electronics" 1 (1 / 5)) with rfl
    exact ⟨.s "Phone", rfl, rfl⟩

theorem nameOf_overwriteFields (it : JVal) (category : String)
    (quantity : Int) (weight : Rat) :
    nameOf (overwriteFields it category quantity weight) = nameOf it := by
  cases it with
  | obj kvs =>
      show nameOf (.obj (dset (dset (dset kvs "category" (.s category))
        "quantity" (.i quantity)) "weight" (.f weight))) = nameOf (.obj kvs)
      simp only [nameOf]
      rw [dget_dset_ne _ _ (show "name" ≠ "weight" by decide),
        dget_dset_ne _ _ (show "name" ≠ "quantity" by decide),
        dget_dset_ne _ _ (show "name" ≠ "category" by decide)]
  | null => rfl
  | b x => rfl
  | i n => rfl
  | f q => rfl
  | s u => rfl
  | arr xs => rfl

/-- `add_item`'s loop on a list whose first case-insensitive match is `it`
(after a non-matching, string-named prefix `pre`): it overwrites the three
fields of `it` in place and leaves everything else untouched. -/
theorem addLoop_match (pre post : List JVal) (it : JVal)
    (name category u : String) (quantity : Int) (weight : Rat)
    (hpre : ∀ x ∈ pre, ∃ w, nameOf x = some w ∧ strLower w ≠ strLower name)
    (hit : nameOf it = some u) (hmatch : strLower u = strLower name) :
    DataStore.addLoop (pre ++ it :: post) name category quantity weight =
      .ok (some (pre ++ overwriteFields it category quantity weight ::
        post)) := by
  induction pre with
  | nil =>
      obtain ⟨kvs, rfl, hname⟩ := nameOf_obj hit
      rw [List.nil_append]
      unfold DataStore.addLoop
      rw [show (JVal.obj kvs).item "name" = .ok (.s u) by
        simp [JVal.item, hname]]
      simp [except_bind_ok, except_pure, hmatch, JVal.setItem,
        overwriteFields]
  | cons x rest ih =>
      obtain ⟨w, hw, hne⟩ := hpre x (List.mem_cons_self _ _)
      obtain ⟨kvs, rfl, hname⟩ := nameOf_obj hw
      rw [List.cons_append]
      unfold DataStore.addLoop
      rw [show (JVal.obj kvs).item "name" = .ok (.s w) by
        simp [JVal.item, hname]]
      simp only [except_bind_ok, if_neg hne]
      rw [ih (fun y hy => hpre y (List.mem_cons_of_mem _ hy))]
      simp [except_bind_ok, except_pure]

/-- `add_item`'s loop finds no case-insensitive match when every entry has a
string name whose lowercase differs from the argument's. -/
theorem addLoop_none (items : List JVal) (name category : String)
    (quantity : Int) (weight : Rat)
    (h : ∀ x ∈ items, ∃ w, nameOf x = some w ∧ strLower w ≠ strLower name) :
    DataStore.addLoop items name category quantity weight = .ok none := by
  induction items with
  | nil => rfl
  | cons x rest ih =>
      obtain ⟨w, hw, hne⟩ := h x (List.mem_cons_self _ _)
      obtain ⟨kvs, rfl, hname⟩ := nameOf_obj hw
      unfold DataStore.addLoop
      rw [show (JVal.obj kvs).item "name" = .ok (.s w) by
        simp [JVal.item, hname]]
      simp [except_bind_ok, except_pure, hne,
        ih (fun y hy => h y (List.mem_cons_of_mem _ hy))]

/-- C7: `add_item(name, category, quantity, weight)` with a first
case-insensitive name match `it` overwrites `it`'s category/quantity/weight
in place — same position, same inventory length, name untouched; with no
match it appends the fresh item at the end of the sequence. -/
theorem c7_add_item_overwrites_match_else_appends
    (kvs skvs : List (String × JVal)) (items pre post : List JVal)
    (it : JVal) (name category u : String) (quantity : Int) (weight : Rat)
    (now : String)
    (hinv : dget kvs "inventory" = some (.arr items))
    (hset : dget kvs "settings" = some (.obj skvs)) :
    ((items = pre ++ it :: post ∧
      (∀ x ∈ pre, ∃ w, nameOf x = some w ∧ strLower w ≠ strLower name) ∧
      nameOf it = some u ∧ strLower u = strLower name) →
      ∃ kvs' saved, DataStore.add_item (.obj kvs) name category quantity
          weight now = .ok (.obj kvs', saved) ∧
        dget kvs' "inventory" = some (.arr (pre ++
          overwriteFields it category quantity weight :: post)) ∧
        (pre ++ overwriteFields it category quantity weight :: post).length
          = items.length ∧
        nameOf (overwriteFields it category quantity weight) = nameOf it) ∧
    ((∀ x ∈ items, ∃ w, nameOf x = some w ∧ strLower w ≠ strLower name) →
      ∃ kvs' saved, DataStore.add_item (.obj kvs) name category quantity
          weight now = .ok (.obj kvs', saved) ∧
        dget kvs' "inventory" = some (.arr (items ++
          [DataStore.newItem name category quantity weight]))) := by
  constructor
  · rintro ⟨rfl, hpre, hit, hmatch⟩
    have hloop := addLoop_match pre post it name category u quantity weight
      hpre hit hmatch
    have hset1 : dget (dset kvs "inventory" (.arr (pre ++
        overwriteFields it category quantity weight :: post))) "settings" =
        some (.obj skvs) := by
      rw [dget_dset_ne kvs _ (by decide)]
      exact hset
    obtain ⟨kvs', saved, hrun, hpres⟩ :=
      maybeAutoSave_preserves _ skvs now hset1
    refine ⟨kvs', saved, ?_, ?_, by simp,
      nameOf_overwriteFields it category quantity weight⟩
    · unfold DataStore.add_item
      simp only [JVal.item, hinv, except_bind_ok, hloop, JVal.setItem]
      exact hrun
    · rw [hpres "inventory" (by decide), dget_dset_self]
  · intro hnone
    have hloop := addLoop_none items name category quantity weight hnone
    have hset1 : dget (dset kvs "inventory" (.arr (items ++
        [DataStore.newItem name category quantity weight]))) "settings" =
        some (.obj skvs) := by
      rw [dget_dset_ne kvs _ (by decide)]
      exact hset
    obtain ⟨kvs', saved, hrun, hpres⟩ :=
      maybeAutoSave_preserves _ skvs now hset1
    refine ⟨kvs', saved, ?_, ?_⟩
    · unfold DataStore.add_item
      simp only [JVal.item, hinv, except_bind_ok, hloop, JVal.setItem]
      exact hrun
    · rw [hpres "inventory" (by decide), dget_dset_self]

/-- C7 witness: on a one-item store holding `"Phone"`,
`add_item("phone", ...)` overwrites that entry in place (length still 1)
and `add_item("Flashlight", ...)` appends at the end. -/
theorem c7_add_item_overwrites_match_else_appends_witness :
    (∃ kvs' saved, DataStore.add_item
        (.obj [("inventory",
            .arr [DataStore.newItem "Phone" "Electronics" 1 (1 / 5)]),
          ("settings", .obj [("auto_save", .b true)])])
        "phone" "Gear" 2 (3 / 10) "t1" = .ok (.obj kvs', saved) ∧
      dget kvs' "inventory" = some (.arr
        [overwriteFields (DataStore.newItem "Phone" "Electronics" 1 (1 / 5))
          "Gear" 2 (3 / 10)])) ∧
    (∃ kvs' saved, DataStore.add_item
        (.obj [("inventory",
            .arr [DataStore.newItem "Phone" "Electronics" 1 (1 / 5)]),
          ("settings", .obj [("auto_save", .b true)])])
        "Flashlight" "Gear" 1 (1 / 2) "t1" = .ok (.obj kvs', saved) ∧
      dget kvs' "inventory" = some (.arr
        [DataStore.newItem "Phone" "Electronics" 1 (1 / 5),
         DataStore.newItem "Flashlight" "Gear" 1 (1 / 2)])) := by
  constructor
  · obtain ⟨kvs', saved, hrun, hinv, -, -⟩ :=
      (c7_add_item_overwrites_match_else_appends
        [("inventory",
            .arr [DataStore.newItem "Phone" "Electronics" 1 (1 / 5)]),
          ("settings", .obj [("auto_save", .b true)])]
        [("auto_save", .b true)]
        [DataStore.newItem "Phone" "Electronics" 1 (1 / 5)] [] []
        (DataStore.newItem "Phone" "Electronics" 1 (1 / 5))
        "phone" "Gear" "Phone" 2 (3 / 10) "t1" rfl rfl).1
      ⟨rfl, fun x hx => absurd hx (List.not_mem_nil x), rfl, rfl⟩
    exact ⟨kvs', saved, hrun, by simpa using hinv⟩
  · obtain ⟨kvs', saved, hrun, hinv⟩ :=
      (c7_add_item_overwrites_match_else_appends
        [("inventory",
            .arr [DataStore.newItem "Phone" "Electronics" 1 (1 / 5)]),
          ("settings", .obj [("auto_save", .b true)])]
        [("auto_save", .b true)]
        [DataStore.newItem "Phone" "Electronics" 1 (1 / 5)] [] []
        (DataStore.newItem "Phone" "Electronics" 1 (1 / 5))
        "Flashlight" "Gear" "Phone" 1 (1 / 2) "t1" rfl rfl).2
      (by
        intro x hx
        rcases (by simpa using hx :
            x = DataStore.newItem "Phone" "Electronics" 1 (1 / 5)) with rfl
        exact ⟨"Phone", rfl, by decide⟩)
    exact ⟨kvs', saved, hrun, by simpa using hinv⟩

theorem item_ok_inv {it : JVal} {k : String} {v : JVal}
    (h : it.item k = .ok v) : ∃ kvs, it = .obj kvs ∧ dget kvs k = some v := by
  cases it with
  | obj kvs =>
      refine ⟨kvs, rfl, ?_⟩
      simp only [JVal.item] at h
      cases hd : dget kvs k with
      | none => rw [hd] at h; cases h
      | some x => rw [hd] at h; simpa using h
  | null => simp [JVal.item] at h
  | b x => simp [JVal.item] at h
  | i n => simp [JVal.item] at h
  | f q => simp [JVal.item] at h
  | s u => simp [JVal.item] at h
  | arr xs => simp [JVal.item] at h

theorem lowerNames_append (l1 l2 : List JVal) :
    lowerNames (l1 ++ l2) = lowerNames l1 ++ lowerNames l2 := by
  simp [lowerNames, List.filterMap_append]

theorem lowerNames_cons_of_name {it : JVal} {u : String}
    (h : nameOf it = some u) (l : List JVal) :
    lowerNames (it :: l) = strLower u :: lowerNames l := by
  simp [lowerNames, List.filterMap_cons, h]

theorem lowerNames_cons_eq {it it' : JVal} (h : nameOf it = nameOf it')
    (l : List JVal) : lowerNames (it :: l) = lowerNames (it' :: l) := by
  simp only [lowerNames, List.filterMap_cons, h]

theorem mem_lowerNames {s : String} {items : List JVal}
    (h : s ∈ lowerNames items) :
    ∃ x ∈ items, ∃ w, nameOf x = some w ∧ s = strLower w := by
  simp only [lowerNames, List.mem_filterMap, Option.map_eq_some'] at h
  obtain ⟨x, hx, w, hw, hs⟩ := h
  exact ⟨x, hx, w, hw, hs.symm⟩

/-- Any successful removal decomposes the inventory as prefix/removed/suffix,
and the result is the list with that one element dropped (same prefix, same
suffix). -/
theorem removeLoop_some {items l' : List JVal} {name : String}
    (h : DataStore.removeLoop items name = .ok (some l')) :
    ∃ pre it post, items = pre ++ it :: post ∧ l' = pre ++ post := by
  induction items generalizing l' with
  | nil => simp [DataStore.removeLoop] at h
  | cons it rest ih =>
      unfold DataStore.removeLoop at h
      cases hnm : JVal.item it "name" with
      | error e => rw [hnm] at h; simp [except_bind_err] at h
      | ok v =>
          rw [hnm] at h
          simp only [except_bind_ok] at h
          by_cases hp : pyEqStr v name = true
          · rw [if_pos hp] at h
            have hrl : rest = l' := by simpa [except_pure] using h
            exact ⟨[], it, rest, rfl, by rw [← hrl]; rfl⟩
          · rw [if_neg hp] at h
            cases hr : DataStore.removeLoop rest name with
            | error e => rw [hr] at h; simp [except_bind_err] at h
            | ok r =>
                rw [hr] at h
                simp only [except_bind_ok] at h
                cases r with
                | none => simp [except_pure] at h
                | some rest' =>
                    have hl : it :: rest' = l' := by
                      simpa [except_pure] using h
                    obtain ⟨pre, x, post, hrest, hrest'⟩ := ih hr
                    refine ⟨it :: pre, x, post, by rw [hrest]; rfl, ?_⟩
                    rw [← hl, hrest']
                    rfl

/-- Any successful `update_item` match decomposes the inventory as
prefix/matched/suffix; the matched entry is a dict whose `"name"` is exactly
`orig`, and it is replaced in place by the dict with all four fields
overwritten. -/
theorem updateLoop_some {items l' : List JVal}
    {orig name category : String} {quantity : Int} {weight : Rat}
    (h : DataStore.updateLoop items orig name category quantity weight =
      .ok (some l')) :
    ∃ pre kvs post, items = pre ++ JVal.obj kvs :: post ∧
      dget kvs "name" = some (.s orig) ∧
      l' = pre ++ JVal.obj (dset (dset (dset (dset kvs "name" (.s name))
        "category" (.s category)) "quantity" (.i quantity)) "weight"
        (.f weight)) :: post := by
  induction items generalizing l' with
  | nil => simp [DataStore.updateLoop] at h
  | cons it rest ih =>
      unfold DataStore.updateLoop at h
      cases hnm : JVal.item it "name" with
      | error e => rw [hnm] at h; simp [except_bind_err] at h
      | ok v =>
          rw [hnm] at h
          simp only [except_bind_ok] at h
          by_cases hp : pyEqStr v orig = true
          · rw [if_pos hp] at h
            obtain rfl := pyEqStr_true hp
            obtain ⟨kvs, rfl, hname⟩ := item_ok_inv hnm
            have hl : JVal.obj (dset (dset (dset (dset kvs "name" (.s name))
                "category" (.s category)) "quantity" (.i quantity)) "weight"
                (.f weight)) :: rest = l' := by
              simpa [JVal.setItem, except_bind_ok, except_pure] using h
            exact ⟨[], kvs, rest, rfl, hname, by rw [← hl]; rfl⟩
          · rw [if_neg hp] at h
            cases hr : DataStore.updateLoop rest orig name category quantity
                weight with
            | error e => rw [hr] at h; simp [except_bind_err] at h
            | ok r =>
                rw [hr] at h
                simp only [except_bind_ok] at h
                cases r with
                | none => simp [except_pure] at h
                | some rest' =>
                    have hl : it :: rest' = l' := by
                      simpa [except_pure] using h
                    obtain ⟨pre, kvs, post, hrest, hname, hrest'⟩ := ih hr
                    refine ⟨it :: pre, kvs, post, by rw [hrest]; rfl, hname,
                      ?_⟩
                    rw [← hl, hrest']
                    rfl

/-- C6 counterexample: from the default document (a state trivially reachable
by zero operations), `update_item("Phone", "wallet", ...)` succeeds and
leaves the inventory with two entries — `"wallet"` and `"Wallet"` — whose
names are equal ignoring case, so case-insensitive uniqueness is *not*
preserved by `update_item` renaming. -/
theorem c6_counterexample :
    ∃ d' saved, DataStore.update_item (DataStore.default_data "t0") "Phone"
        "wallet" "Essentials" 1 (1 / 10) "t1" = .ok (true, d', saved) ∧
      ∃ items, d'.item "inventory" = .ok (.arr items) ∧
        lowerNames items = ["wallet", "wallet", "keys"] ∧
        ¬ ciUnique items := by
  refine ⟨_, _, rfl,
    [.obj [("name", .s "wallet"), ("category", .s "Essentials"),
       ("quantity", .i 1), ("weight", .f (1 / 10))],
     .obj [("name", .s "Wallet"), ("category", .s "Essentials"),
       ("quantity", .i 1), ("weight", .f (1 / 10))],
     .obj [("name", .s "Keys"), ("category", .s "Essentials"),
       ("quantity", .i 1), ("weight", .f (1 / 20))]],
    rfl, rfl, ?_⟩
  unfold ciUnique
  rw [show lowerNames
    [.obj [("name", .s "wallet"), ("category", .s "Essentials"),
       ("quantity", .i 1), ("weight", .f (1 / 10))],
     .obj [("name", .s "Wallet"), ("category", .s "Essentials"),
       ("quantity", .i 1), ("weight", .f (1 / 10))],
     .obj [("name", .s "Keys"), ("category", .s "Essentials"),
       ("quantity", .i 1), ("weight", .f (1 / 20))]] =
      ["wallet", "wallet", "keys"] from rfl]
  decide

/-- On a string-named inventory, `add_item`'s loop either reports no match —
and then the searched name is (case-insensitively) fresh — or succeeds with
an in-place update that leaves the (lowercased) name sequence unchanged. -/
theorem addLoop_lowerNames (items : List JVal) (name category : String)
    (quantity : Int) (weight : Rat)
    (hwf : ∀ x ∈ items, ∃ w, nameOf x = some w) :
    (DataStore.addLoop items name category quantity weight = .ok none ∧
      strLower name ∉ lowerNames items) ∨
    (∃ l', DataStore.addLoop items name category quantity weight =
      .ok (some l') ∧ lowerNames l' = lowerNames items) := by
  induction items with
  | nil => exact Or.inl ⟨rfl, by simp [lowerNames]⟩
  | cons x rest ih =>
      obtain ⟨w, hw⟩ := hwf x (List.mem_cons_self _ _)
      obtain ⟨kvs, rfl, hname⟩ := nameOf_obj hw
      by_cases hm : strLower w = strLower name
      · right
        refine ⟨overwriteFields (.obj kvs) category quantity weight :: rest,
          ?_, ?_⟩
        · unfold DataStore.addLoop
          rw [show (JVal.obj kvs).item "name" = .ok (.s w) by
            simp [JVal.item, hname]]
          simp [except_bind_ok, except_pure, hm, JVal.setItem,
            overwriteFields]
        · exact lowerNames_cons_eq
            (nameOf_overwriteFields (.obj kvs) category quantity weight) rest
      · rcases ih (fun y hy => hwf y (List.mem_cons_of_mem _ hy)) with
          ⟨hl, hnin⟩ | ⟨l', hl, heqn⟩
        · left
          constructor
          · unfold DataStore.addLoop
            rw [show (JVal.obj kvs).item "name" = .ok (.s w) by
              simp [JVal.item, hname]]
            simp [except_bind_ok, except_pure, hm, hl]
          · rw [lowerNames_cons_of_name hw]
            intro hmem
            rcases List.mem_cons.mp hmem with he | hmem2
            · exact hm he.symm
            · exact hnin hmem2
        · right
          refine ⟨.obj kvs :: l', ?_, ?_⟩
          · unfold DataStore.addLoop
            rw [show (JVal.obj kvs).item "name" = .ok (.s w) by
              simp [JVal.item, hname]]
            simp [except_bind_ok, except_pure, hm, hl]
          · rw [lowerNames_cons_of_name hw, lowerNames_cons_of_name hw, heqn]

/-- C6 amended: starting from an inventory of string-named entries whose
names are case-insensitively unique, `add_item` and `remove_item` always
preserve that uniqueness, and `update_item` preserves it provided the new
name does not (ignoring case) collide — i.e. it is fresh, or it is a
re-spelling of the renamed entry's own name.  (Without that proviso
`update_item` can break uniqueness, as the counterexample shows.) -/
theorem c6_amended_uniqueness_preservation
    (kvs skvs : List (String × JVal)) (items : List JVal)
    (name category orig rname now : String) (quantity : Int) (weight : Rat)
    (hinv : dget kvs "inventory" = some (.arr items))
    (hset : dget kvs "settings" = some (.obj skvs))
    (hwf : ∀ x ∈ items, ∃ w, nameOf x = some w)
    (hciu : ciUnique items) :
    (∀ kvs' saved items',
      DataStore.add_item (.obj kvs) name category quantity weight now =
        .ok (.obj kvs', saved) →
      dget kvs' "inventory" = some (.arr items') → ciUnique items') ∧
    (∀ flag kvs' saved items',
      DataStore.remove_item (.obj kvs) rname now =
        .ok (flag, .obj kvs', saved) →
      dget kvs' "inventory" = some (.arr items') → ciUnique items') ∧
    ((strLower name ∉ lowerNames items ∨ strLower name = strLower orig) →
      ∀ flag kvs' saved items',
      DataStore.update_item (.obj kvs) orig name category quantity weight
        now = .ok (flag, .obj kvs', saved) →
      dget kvs' "inventory" = some (.arr items') → ciUnique items') := by
  have hitem : (JVal.obj kvs).item "inventory" = .ok (.arr items) := by
    simp [JVal.item, hinv]
  refine ⟨?_, ?_, ?_⟩
  · intro kvs' saved items' hrun hinv'
    rcases addLoop_lowerNames items name category quantity weight hwf with
      ⟨hl, hnin⟩ | ⟨l', hl, heqn⟩
    · have hset1 : dget (dset kvs "inventory" (.arr (items ++
          [DataStore.newItem name category quantity weight]))) "settings" =
          some (.obj skvs) := by
        rw [dget_dset_ne kvs _ (by decide)]
        exact hset
      obtain ⟨kvs0, saved0, hrun0, hpres⟩ :=
        maybeAutoSave_preserves _ skvs now hset1
      have hadd : DataStore.add_item (.obj kvs) name category quantity
          weight now = .ok (.obj kvs0, saved0) := by
        unfold DataStore.add_item
        simp only [hitem, except_bind_ok, hl, JVal.setItem]
        exact hrun0
      rw [hadd] at hrun
      obtain rfl : kvs0 = kvs' :=
        JVal.obj.inj (congrArg (fun p => p.1) (Except.ok.inj hrun))
      rw [hpres "inventory" (by decide), dget_dset_self] at hinv'
      obtain rfl : items ++ [DataStore.newItem name category quantity weight]
          = items' := JVal.arr.inj (Option.some.inj hinv')
      unfold ciUnique
      rw [lowerNames_append,
        lowerNames_cons_of_name
          (show nameOf (DataStore.newItem name category quantity weight) =
            some name from rfl) []]
      rw [List.nodup_middle]
      refine List.nodup_cons.mpr ⟨?_, by simpa [lowerNames] using hciu⟩
      simpa [lowerNames] using hnin
    · have hset1 : dget (dset kvs "inventory" (.arr l')) "settings" =
          some (.obj skvs) := by
        rw [dget_dset_ne kvs _ (by decide)]
        exact hset
      obtain ⟨kvs0, saved0, hrun0, hpres⟩ :=
        maybeAutoSave_preserves _ skvs now hset1
      have hadd : DataStore.add_item (.obj kvs) name category quantity
          weight now = .ok (.obj kvs0, saved0) := by
        unfold DataStore.add_item
        simp only [hitem, except_bind_ok, hl, JVal.setItem]
        exact hrun0
      rw [hadd] at hrun
      obtain rfl : kvs0 = kvs' :=
        JVal.obj.inj (congrArg (fun p => p.1) (Except.ok.inj hrun))
      rw [hpres "inventory" (by decide), dget_dset_self] at hinv'
      obtain rfl : l' = items' := JVal.arr.inj (Option.some.inj hinv')
      unfold ciUnique
      rw [heqn]
      exact hciu
  · intro flag kvs' saved items' hrun hinv'
    unfold DataStore.remove_item at hrun
    rw [hitem] at hrun
    simp only [except_bind_ok] at hrun
    cases hr : DataStore.removeLoop items rname with
    | error e => rw [hr] at hrun; cases hrun
    | ok r =>
        rw [hr] at hrun
        simp only [except_bind_ok] at hrun
        cases r with
        | none =>
            rw [except_pure] at hrun
            obtain rfl : kvs = kvs' := JVal.obj.inj
              (congrArg (fun p => p.2.1) (Except.ok.inj hrun))
            rw [hinv] at hinv'
            obtain rfl : items = items' :=
              JVal.arr.inj (Option.some.inj hinv')
            exact hciu
        | some l' =>
            have hset1 : dget (dset kvs "inventory" (.arr l')) "settings" =
                some (.obj skvs) := by
              rw [dget_dset_ne kvs _ (by decide)]
              exact hset
            obtain ⟨kvs0, saved0, hrun0, hpres⟩ :=
              maybeAutoSave_preserves _ skvs now hset1
            simp only [JVal.setItem, except_bind_ok, hrun0, except_pure]
              at hrun
            obtain rfl : kvs0 = kvs' := JVal.obj.inj
              (congrArg (fun p => p.2.1) (Except.ok.inj hrun))
            rw [hpres "inventory" (by decide), dget_dset_self] at hinv'
            obtain rfl : l' = items' := JVal.arr.inj (Option.some.inj hinv')
            obtain ⟨pre, it, post, rfl, rfl⟩ := removeLoop_some hr
            obtain ⟨w, hw⟩ := hwf it (by simp)
            unfold ciUnique at hciu ⊢
            rw [lowerNames_append] at hciu ⊢
            rw [lowerNames_cons_of_name hw] at hciu
            rw [List.nodup_middle, List.nodup_cons] at hciu
            exact hciu.2
  · intro hfresh flag kvs' saved items' hrun hinv'
    unfold DataStore.update_item at hrun
    rw [hitem] at hrun
    simp only [except_bind_ok] at hrun
    cases hr : DataStore.updateLoop items orig name category quantity weight
        with
    | error e => rw [hr] at hrun; cases hrun
    | ok r =>
        rw [hr] at hrun
        simp only [except_bind_ok] at hrun
        cases r with
        | none =>
            rw [except_pure] at hrun
            obtain rfl : kvs = kvs' := JVal.obj.inj
              (congrArg (fun p => p.2.1) (Except.ok.inj hrun))
            rw [hinv] at hinv'
            obtain rfl : items = items' :=
              JVal.arr.inj (Option.some.inj hinv')
            exact hciu
        | some l' =>
            have hset1 : dget (dset kvs "inventory" (.arr l')) "settings" =
                some (.obj skvs) := by
              rw [dget_dset_ne kvs _ (by decide)]
              exact hset
            obtain ⟨kvs0, saved0, hrun0, hpres⟩ :=
              maybeAutoSave_preserves _ skvs now hset1
            simp only [JVal.setItem, except_bind_ok, hrun0, except_pure]
              at hrun
            obtain rfl : kvs0 = kvs' := JVal.obj.inj
              (congrArg (fun p => p.2.1) (Except.ok.inj hrun))
            rw [hpres "inventory" (by decide), dget_dset_self] at hinv'
            obtain rfl : l' = items' := JVal.arr.inj (Option.some.inj hinv')
            obtain ⟨pre, kvs1, post, rfl, hname1, rfl⟩ := updateLoop_some hr
            have hnameOld : nameOf (JVal.obj kvs1) = some orig := by
              simp [nameOf, hname1]
            have hnameNew : nameOf (JVal.obj (dset (dset (dset (dset kvs1
                "name" (.s name)) "category" (.s category)) "quantity"
                (.i quantity)) "weight" (.f weight))) = some name := by
              simp only [nameOf]
              rw [dget_dset_ne _ _ (show "name" ≠ "weight" by decide),
                dget_dset_ne _ _ (show "name" ≠ "quantity" by decide),
                dget_dset_ne _ _ (show "name" ≠ "category" by decide),
                dget_dset_self]
            unfold ciUnique at hciu ⊢
            rw [lowerNames_append, lowerNames_cons_of_name hnameOld]
              at hciu
            rw [lowerNames_append, lowerNames_cons_of_name hnameNew]
            rcases hfresh with hnin | hsame
            · rw [List.nodup_middle, List.nodup_cons]
              rw [List.nodup_middle, List.nodup_cons] at hciu
              refine ⟨?_, hciu.2⟩
              intro hmem
              apply hnin
              rw [lowerNames_append, lowerNames_cons_of_name hnameOld]
              rcases List.mem_append.mp hmem with h1 | h1
              · exact List.mem_append.mpr (Or.inl h1)
              · exact List.mem_append.mpr
                  (Or.inr (List.mem_cons_of_mem _ h1))
            · rw [hsame]
              exact hciu

/-- C6 amended, witness: adding a fresh name to a one-item inventory keeps
the names case-insensitively unique. -/
theorem c6_amended_uniqueness_preservation_witness :
    ciUnique [DataStore.newItem "Phone" "Electronics" 1 (1 / 5),
      DataStore.newItem "Flashlight" "Gear" 1 (1 / 2)] :=
  (c6_amended_uniqueness_preservation
    [("inventory", .arr [DataStore.newItem "Phone" "Electronics" 1 (1 / 5)]),
     ("settings", .obj [("auto_save", .b true)])]
    [("auto_save", .b true)]
    [DataStore.newItem "Phone" "Electronics" 1 (1 / 5)]
    "Flashlight" "Gear" "x" "y" "t1" 1 (1 / 2)
    rfl rfl
    (fun x hx => by
      rcases (by simpa using hx :
          x = DataStore.newItem "Phone" "Electronics" 1 (1 / 5)) with rfl
      exact ⟨"Phone", rfl⟩)
    (by unfold ciUnique; decide)).1
    [("inventory", .arr [DataStore.newItem "Phone" "Electronics" 1 (1 / 5),
        DataStore.newItem "Flashlight" "Gear" 1 (1 / 2)]),
     ("settings", .obj [("auto_save", .b true)]),
     ("last_updated", .s "t1")]
    (some (.stored (.obj
      [("inventory", .arr [DataStore.newItem "Phone" "Electronics" 1 (1 / 5),
          DataStore.newItem "Flashlight" "Gear" 1 (1 / 2)]),
       ("settings", .obj [("auto_save", .b true)]),
       ("last_updated", .s "t1")])))
    [DataStore.newItem "Phone" "Electronics" 1 (1 / 5),
     DataStore.newItem "Flashlight" "Gear" 1 (1 / 2)]
    rfl rfl
